import Mathlib

/-!
# Verification of the transport primitives in `indigo_libs/indigo_io.c`

This file gives a shallow embedding of the raw transport layer of the
INDIGO framework (`indigo_io.c`) and proves/refutes the specified
properties of its functions.

The underlying `read(2)`/`write(2)`/socket system calls are modelled by
oracles: a list of per-call results (for the byte-transfer loops) or a
record of outcomes (for the socket/tty opening paths).  Buffers are
modelled by the sequence of writes performed on them (index/value pairs),
so that out-of-bounds stores are visible in the model.
-/

set_option linter.unusedVariables false

namespace IndigoIO

/-! ## `indigo_read_line` (indigo_io.c, lines 345-374)

One byte is read per iteration.  A stream element `some c` models a
`read` call that returned one byte `c`; `none` models a call that
returned `<= 0`.  The result is the returned `int` together with the
list of stores `(index, value)` performed on `buffer`; the NUL
terminator is the store of value `0`. -/

def readLineLoop (length : Nat) : List (Option Nat) → Nat → Option (Int × List (Nat × Nat))
  | [], total =>
    if total < length then
      none
    else
      some ((total : Int), [(total, 0)])
  | r :: rest, total =>
    if total < length then
      match r with
      | none => some (-1, [])
      | some c =>
        if c = 13 then
          readLineLoop length rest total
        else if c = 10 then
          some ((total : Int), [(total, 0)])
        else
          (readLineLoop length rest (total + 1)).map (fun p => (p.1, (total, c) :: p.2))
    else
      some ((total : Int), [(total, 0)])

/-- `indigo_read_line(handle, buffer, length)` with the stream of
per-call `read` results given by `input`. -/
def indigo_read_line (input : List (Option Nat)) (length : Nat) : Option (Int × List (Nat × Nat)) :=
  readLineLoop length input 0

/-! ## `indigo_write` (indigo_io.c, lines 376-392)

`results` is the list of return values of the underlying `write` calls.
The value is the returned `bool` together with the list of
`(buffer offset, remains)` argument pairs of the underlying calls;
`none` models the loop running out of modelled call results. -/

def writeLoop : List Int → Int → Int → Option (Bool × List (Int × Int))
  | [], off, remains => none
  | w :: rest, off, remains =>
    if w < 0 then
      some (false, [(off, remains)])
    else if w = remains then
      some (true, [(off, remains)])
    else
      (writeLoop rest (off + w) (remains - w)).map (fun p => (p.1, (off, remains) :: p.2))

/-- `indigo_write(handle, buffer, length)` with underlying `write`
results `results`. -/
def indigo_write (results : List Int) (length : Int) : Option (Bool × List (Int × Int)) :=
  writeLoop results 0 length

/-! ## `indigo_read` (indigo_io.c, lines 303-326)

`results` is the list of return values of the underlying `read` calls. -/

def readLoop : List Int → Int → Int → Option Int
  | [], total, remains => none
  | r :: rest, total, remains =>
    if r ≤ 0 then
      some r
    else if r = remains then
      some (total + r)
    else
      readLoop rest (total + r) (remains - r)

/-- `indigo_read(handle, buffer, length)` with underlying `read` results
`results`. -/
def indigo_read (results : List Int) (length : Int) : Option Int :=
  readLoop results 0 length

/-! ## `indigo_open_tcp` / `indigo_open_udp` (indigo_io.c, lines 241-301)

The system calls are modelled by an outcome record, and the side effects
of the function are recorded as a list of events. -/

def SOCK_STREAM : Nat := 1
def SOCK_DGRAM : Nat := 2

/-- Outcomes of the system calls made by `indigo_open_tcp`/`indigo_open_udp`:
`resolveOk` is whether `gethostbyname` returned non-NULL, `socketResult`
the result of `socket` (`-1` = failure), `connectResult` of `connect`
(`< 0` = failure), and `rcvTimeoutResult`/`sndTimeoutResult` the results
of the two `setsockopt` calls (`< 0` = failure). -/
structure NetEnv where
  resolveOk : Bool
  socketResult : Int
  connectResult : Int
  rcvTimeoutResult : Int
  sndTimeoutResult : Int

inductive NetEvent where
  | socketCreate (sockType : Nat)
  | connectCall (sock : Int)
  | setRcvTimeout (sock : Int) (sec : Int) (usec : Int)
  | setSndTimeout (sock : Int) (sec : Int) (usec : Int)
  | closeSock (sock : Int)
deriving DecidableEq, Repr

/-- `indigo_open_tcp(host, port)`; `timeout.tv_sec = 5`, `timeout.tv_usec = 0`. -/
def indigo_open_tcp (env : NetEnv) : Int × List NetEvent :=
  let tv_sec : Int := 5
  let tv_usec : Int := 0
  if env.resolveOk = false then
    (-1, [])
  else if env.socketResult = -1 then
    (-1, [NetEvent.socketCreate SOCK_STREAM])
  else
    let sock := env.socketResult
    if env.connectResult < 0 then
      (-1, [NetEvent.socketCreate SOCK_STREAM, NetEvent.connectCall sock])
    else if env.rcvTimeoutResult < 0 then
      (-1, [NetEvent.socketCreate SOCK_STREAM, NetEvent.connectCall sock,
            NetEvent.setRcvTimeout sock tv_sec tv_usec, NetEvent.closeSock sock])
    else if env.sndTimeoutResult < 0 then
      (-1, [NetEvent.socketCreate SOCK_STREAM, NetEvent.connectCall sock,
            NetEvent.setRcvTimeout sock tv_sec tv_usec,
            NetEvent.setSndTimeout sock tv_sec tv_usec, NetEvent.closeSock sock])
    else
      (sock, [NetEvent.socketCreate SOCK_STREAM, NetEvent.connectCall sock,
              NetEvent.setRcvTimeout sock tv_sec tv_usec,
              NetEvent.setSndTimeout sock tv_sec tv_usec])

/-- `indigo_open_udp(host, port)`; identical to `indigo_open_tcp` except
for the socket type. -/
def indigo_open_udp (env : NetEnv) : Int × List NetEvent :=
  let tv_sec : Int := 5
  let tv_usec : Int := 0
  if env.resolveOk = false then
    (-1, [])
  else if env.socketResult = -1 then
    (-1, [NetEvent.socketCreate SOCK_DGRAM])
  else
    let sock := env.socketResult
    if env.connectResult < 0 then
      (-1, [NetEvent.socketCreate SOCK_DGRAM, NetEvent.connectCall sock])
    else if env.rcvTimeoutResult < 0 then
      (-1, [NetEvent.socketCreate SOCK_DGRAM, NetEvent.connectCall sock,
            NetEvent.setRcvTimeout sock tv_sec tv_usec, NetEvent.closeSock sock])
    else if env.sndTimeoutResult < 0 then
      (-1, [NetEvent.socketCreate SOCK_DGRAM, NetEvent.connectCall sock,
            NetEvent.setRcvTimeout sock tv_sec tv_usec,
            NetEvent.setSndTimeout sock tv_sec tv_usec, NetEvent.closeSock sock])
    else
      (sock, [NetEvent.socketCreate SOCK_DGRAM, NetEvent.connectCall sock,
              NetEvent.setRcvTimeout sock tv_sec tv_usec,
              NetEvent.setSndTimeout sock tv_sec tv_usec])

/-! ## Serial-port configuration (indigo_io.c, lines 56-237)

Linux `<termios.h>` constant values. -/

def CS5 : Nat := 0x00
def CS6 : Nat := 0x10
def CS7 : Nat := 0x20
def CS8 : Nat := 0x30
def PARENB : Nat := 0x100
def PARODD : Nat := 0x200
def CSTOPB : Nat := 0x40
def CLOCAL : Nat := 0x800
def CREAD : Nat := 0x80
def IGNPAR : Nat := 0x4
def INPCK : Nat := 0x10
def EINVAL : Nat := 22

/-- One entry of the baud-rate table `br`: `len` is `sizeof(str)`, which
counts the terminating NUL byte. -/
structure sbaud_rate where
  value : Int
  len : Nat
  str : List Char
deriving DecidableEq, Repr

/-- The `BR(str, val)` initializer: `{ val, sizeof(str), str }`. -/
def mkBR (s : String) (v : Int) : sbaud_rate :=
  { value := v, len := s.length + 1, str := s.toList }

/-- The baud-rate table `br` (indigo_io.c, lines 63-97), with the Linux
values of the `B*` speed constants; the final entry is the
empty-string sentinel `BR("", 0)`. -/
def br : List sbaud_rate :=
  [mkBR "50" 0x1, mkBR "75" 0x2, mkBR "110" 0x3, mkBR "134" 0x4,
   mkBR "150" 0x5, mkBR "200" 0x6, mkBR "300" 0x7, mkBR "600" 0x8,
   mkBR "1200" 0x9, mkBR "1800" 0xa, mkBR "2400" 0xb, mkBR "4800" 0xc,
   mkBR "9600" 0xd, mkBR "19200" 0xe, mkBR "38400" 0xf, mkBR "57600" 0x1001,
   mkBR "115200" 0x1002, mkBR "230400" 0x1003, mkBR "460800" 0x1004,
   mkBR "500000" 0x1005, mkBR "576000" 0x1006, mkBR "921600" 0x1007,
   mkBR "1000000" 0x1008, mkBR "1152000" 0x1009, mkBR "1500000" 0x100a,
   mkBR "2000000" 0x100b, mkBR "2500000" 0x100c, mkBR "3000000" 0x100d,
   mkBR "3500000" 0x100e, mkBR "4000000" 0x100f,
   mkBR "" 0]

/-- C `strncmp(s1, s2, n)` on NUL-free character lists (the implicit
terminating NUL of each C string is supplied by the model at the end of
the list). -/
def strncmp : List Char → List Char → Nat → Int
  | _, _, 0 => 0
  | [], [], _ + 1 => 0
  | [], c2 :: _, _ + 1 => 0 - (c2.toNat : Int)
  | c1 :: _, [], _ + 1 => (c1.toNat : Int)
  | c1 :: s1, c2 :: s2, n + 1 =>
    if c1 = c2 then strncmp s1 s2 n else (c1.toNat : Int) - (c2.toNat : Int)

/-- The scan loop of `map_str_baudrate` (indigo_io.c, lines 100-107):
advance while `strncmp(brp->str, baudrate, brp->len)` is non-zero,
returning `-1` upon a mismatch at an empty-string entry. -/
def map_str_baudrate_loop : List sbaud_rate → List Char → Int
  | [], _ => -1
  | e :: rest, b =>
    if strncmp e.str b e.len ≠ 0 then
      if e.str = [] then -1 else map_str_baudrate_loop rest b
    else
      e.value

/-- `map_str_baudrate(baudrate)`. -/
def map_str_baudrate (b : List Char) : Int :=
  map_str_baudrate_loop br b

/-- The fields of `struct termios` assigned by `configure_tty_options`. -/
structure TermiosOptions where
  c_cflag : Nat
  c_iflag : Nat
  c_oflag : Nat
  c_lflag : Nat
  c_cc_vmin : Nat
  c_cc_vtime : Nat
  ispeed : Int
  ospeed : Int
deriving DecidableEq, Repr

/-- The `switch (mode[0])` on the data-bits character. -/
def cbitsOf (c : Char) : Option Nat :=
  if c = '8' then some CS8
  else if c = '7' then some CS7
  else if c = '6' then some CS6
  else if c = '5' then some CS5
  else none

/-- The `switch (mode[1])` on the parity character; returns `(cpar, ipar)`. -/
def parityOf (c : Char) : Option (Nat × Nat) :=
  if c = 'N' ∨ c = 'n' then some (0, IGNPAR)
  else if c = 'E' ∨ c = 'e' then some (PARENB, INPCK)
  else if c = 'O' ∨ c = 'o' then some (PARENB ||| PARODD, INPCK)
  else none

/-- The `switch (mode[2])` on the stop-bits character. -/
def stopOf (c : Char) : Option Nat :=
  if c = '1' then some 0
  else if c = '2' then some CSTOPB
  else none

/-- The part of `configure_tty_options` after the `strchr` split of the
configuration string into `baud` (before the first `'-'`) and `mode`
(after it): the baud-rate lookup, the `strlen(mode) != 3` check and the
three mode-character switches. -/
def configure_tty_body (baud mode : List Char) : Except Nat TermiosOptions :=
  if map_str_baudrate baud = -1 then Except.error EINVAL
  else if mode.length ≠ 3 then Except.error EINVAL
  else
    match cbitsOf (mode.getD 0 ' ') with
    | none => Except.error EINVAL
    | some cbits =>
      match parityOf (mode.getD 1 ' ') with
      | none => Except.error EINVAL
      | some (cpar, ipar) =>
        match stopOf (mode.getD 2 ' ') with
        | none => Except.error EINVAL
        | some bstop =>
          Except.ok
            { c_cflag := cbits ||| cpar ||| bstop ||| CLOCAL ||| CREAD
              c_iflag := ipar
              c_oflag := 0
              c_lflag := 0
              c_cc_vmin := 0
              c_cc_vtime := 50
              ispeed := map_str_baudrate baud
              ospeed := map_str_baudrate baud }

/-- `configure_tty_options(options, baudrate)` (indigo_io.c, lines
109-191).  `Except.error e` models `return -1` with `errno = e`.  The
`strncpy` into the 32-byte local `copy` is the identity for
configuration strings shorter than 32 characters, which is the only case
modelled.  `strchr(copy, '-')` finding no `'-'` is the `'-' ∉ cfg`
branch; otherwise `copy` is split at the first `'-'`. -/
def configure_tty_options (cfg : List Char) : Except Nat TermiosOptions :=
  if '-' ∈ cfg then
    configure_tty_body (cfg.takeWhile (fun c => c ≠ '-'))
      ((cfg.dropWhile (fun c => c ≠ '-')).tail)
  else
    Except.error EINVAL

/-- Outcomes of the system calls made by `open_tty`: `openResult` is the
result of `open(tty_name, ...)` per path, `tcgetattrResult` and
`tcsetattrResult` the results of the two `tc*attr` calls. -/
structure TtyEnv where
  openResult : List Char → Int
  tcgetattrResult : Int
  tcsetattrResult : Int

/-- `open_tty(tty_name, options, old_options)` (indigo_io.c, lines
194-215); `wantOldOptions` is whether `old_options` is non-NULL. -/
def open_tty (env : TtyEnv) (tty_name : List Char) (options : TermiosOptions)
    (wantOldOptions : Bool) : Int :=
  let tty_fd := env.openResult tty_name
  if tty_fd = -1 then -1
  else if wantOldOptions = true ∧ env.tcgetattrResult = -1 then -1
  else if env.tcsetattrResult = -1 then -1
  else tty_fd

/-- `indigo_open_serial_with_config(dev_file, baudconfig)` (indigo_io.c,
lines 229-237).  The second component records whether the device file
was opened (i.e. whether `open_tty` was reached). -/
def indigo_open_serial_with_config (env : TtyEnv) (dev_file : List Char)
    (baudconfig : List Char) : Int × Bool :=
  match configure_tty_options baudconfig with
  | Except.error _ => (-1, false)
  | Except.ok topts => (open_tty env dev_file topts false, true)

/-- The `snprintf(baud_str, 32, "%d-8N1", speed)` format: decimal
rendering of `speed` followed by `"-8N1"`. -/
def intToDecimal (n : Int) : List Char :=
  if n < 0 then '-' :: Nat.toDigits 10 (-n).toNat else Nat.toDigits 10 n.toNat

/-- `indigo_open_serial_with_speed(dev_file, speed)` (indigo_io.c, lines
221-226). -/
def indigo_open_serial_with_speed (env : TtyEnv) (dev_file : List Char)
    (speed : Int) : Int × Bool :=
  indigo_open_serial_with_config env dev_file
    (intToDecimal speed ++ ('-' :: '8' :: 'N' :: '1' :: []))

/-- `indigo_open_serial(dev_file)` (indigo_io.c, lines 217-219). -/
def indigo_open_serial (env : TtyEnv) (dev_file : List Char) : Int × Bool :=
  indigo_open_serial_with_speed env dev_file 9600

/-! ## `indigo_printf` (indigo_io.c, lines 394-402)

`msg` is the full formatted output of the format string and its
arguments (what `vsnprintf` would produce given unbounded space; it
contains no NUL).  `vsnprintf(buffer, 1024, ...)` stores the first
`1023` characters plus a terminating NUL into the local `buffer`, and
returns the untruncated length, which is passed to `indigo_write` as the
byte count. -/

/-- The `length` argument `indigo_printf` passes to `indigo_write`: the
return value of `vsnprintf`. -/
def indigo_printf_len (msg : List Char) : Nat :=
  msg.length

/-- The byte at offset `i` from the start of the local 1024-byte
`buffer`, as seen by the `write` inside `indigo_write`: the stored
truncated message, its NUL terminator, and otherwise junk — either
uninitialized tail of `buffer` (`i < 1024`) or memory past the end of
`buffer` (`1024 ≤ i`). -/
def printf_buffer_byte (junk : Nat → Char) (msg : List Char) (i : Nat) : Char :=
  if h : i < 1023 ∧ i < msg.length then msg.get ⟨i, h.2⟩
  else if i = min 1023 msg.length then Char.ofNat 0
  else junk i

/-- The byte sequence handed to the underlying `write` by
`indigo_printf`: `indigo_printf_len msg` bytes starting at `buffer`. -/
def indigo_printf_transmitted (junk : Nat → Char) (msg : List Char) : List Char :=
  (List.range (indigo_printf_len msg)).map (printf_buffer_byte junk msg)

/-! ## Helper lemmas -/

/-- The bytes `indigo_read_line` stores for a given incoming byte
sequence: everything before the first LF, with the CRs dropped. -/
def lineStored (bytes : List Nat) : List Nat :=
  (bytes.takeWhile (fun c => c ≠ 10)).filter (fun c => c ≠ 13)

/-- The shape of configuration strings described by the specification:
`"<baud>-<data><parity><stop>"` with `<baud>` exactly matching a `br`
table entry, `<data>` one of 5/6/7/8, `<parity>` one of N/n/E/e/O/o and
`<stop>` 1 or 2. -/
def validSerialConfig (cfg : List Char) : Prop :=
  ∃ baud d p s, cfg = baud ++ '-' :: [d, p, s] ∧ '-' ∉ baud ∧
    (∃ e ∈ br, e.str = baud) ∧
    d ∈ ['5', '6', '7', '8'] ∧
    p ∈ ['N', 'n', 'E', 'e', 'O', 'o'] ∧
    s ∈ ['1', '2']

theorem lineStored_cr (rest : List Nat) : lineStored (13 :: rest) = lineStored rest := by
  simp [lineStored, List.takeWhile_cons]

theorem lineStored_lf (rest : List Nat) : lineStored (10 :: rest) = [] := by
  simp [lineStored, List.takeWhile_cons]

theorem lineStored_other {c : Nat} (rest : List Nat) (h13 : c ≠ 13) (h10 : c ≠ 10) :
    lineStored (c :: rest) = c :: lineStored rest := by
  simp [lineStored, List.takeWhile_cons, h13, h10]

theorem enumFrom_cons (n : Nat) (a : α) (l : List α) :
    List.enumFrom n (a :: l) = (n, a) :: List.enumFrom (n + 1) l := rfl

theorem readLineLoop_of_line (length : Nat) (bytes : List Nat) :
    ∀ total : Nat, 10 ∈ bytes → total + (lineStored bytes).length < length →
      readLineLoop length (bytes.map some) total =
        some (((total + (lineStored bytes).length : Nat) : Int),
          List.enumFrom total (lineStored bytes) ++ [(total + (lineStored bytes).length, 0)]) := by
  induction bytes with
  | nil => intro total hmem _; cases hmem
  | cons c rest ih =>
    intro total hmem hlen
    by_cases hc13 : c = 13
    · subst hc13
      have h10 : (10 : Nat) ∈ rest := by
        rcases List.mem_cons.mp hmem with h | h
        · omega
        · exact h
      rw [lineStored_cr] at hlen ⊢
      have htl : total < length := by omega
      simp only [List.map_cons, readLineLoop, if_pos htl, if_pos rfl]
      exact ih total h10 hlen
    · by_cases hc10 : c = 10
      · subst hc10
        rw [lineStored_lf] at hlen ⊢
        have htl : total < length := by omega
        simp [readLineLoop, htl]
      · have h10 : (10 : Nat) ∈ rest := by
          rcases List.mem_cons.mp hmem with h | h
          · exact absurd h.symm hc10
          · exact h
        rw [lineStored_other rest hc13 hc10] at hlen ⊢
        have htl : total < length := by omega
        have hlen' : (total + 1) + (lineStored rest).length < length := by
          simp only [List.length_cons] at hlen; omega
        simp only [List.map_cons, readLineLoop, if_pos htl, if_neg hc13, if_neg hc10,
          ih (total + 1) h10 hlen', Option.map_some]
        rw [enumFrom_cons]
        have harith : (total + 1) + (lineStored rest).length
            = total + (lineStored rest).length.succ := by omega
        simp only [List.length_cons, Nat.succ_eq_add_one] at harith ⊢
        rw [harith]
        simp

theorem readLineLoop_full_buffer (length : Nat) (pre : List Nat) :
    ∀ (rest : List (Option Nat)) (total : Nat),
      (∀ c ∈ pre, c ≠ 13 ∧ c ≠ 10) → total + pre.length = length →
      readLineLoop length (pre.map some ++ rest) total =
        some ((length : Int), List.enumFrom total pre ++ [(length, 0)]) := by
  induction pre with
  | nil =>
    intro rest total _ htot
    simp only [List.length_nil, Nat.add_zero] at htot
    subst htot
    cases rest with
    | nil => simp [readLineLoop]
    | cons r rs => simp [readLineLoop]
  | cons c pre' ih =>
    intro rest total hok htot
    have hc := hok c (List.mem_cons_self c pre')
    have htl : total < length := by
      simp only [List.length_cons] at htot; omega
    have htot' : (total + 1) + pre'.length = length := by
      simp only [List.length_cons] at htot; omega
    have hok' : ∀ x ∈ pre', x ≠ 13 ∧ x ≠ 10 :=
      fun x hx => hok x (List.mem_cons_of_mem c hx)
    simp only [List.map_cons, List.cons_append, readLineLoop, if_pos htl,
      if_neg hc.1, if_neg hc.2, List.append_eq, ih rest (total + 1) hok' htot']
    rfl

theorem range_one_eq : List.range 1 = [0] := by
  rw [List.range_succ_eq_map]; rfl

theorem writeLoop_spec (results : List Int) :
    ∀ (off rem : Int) (b : Bool) (calls : List (Int × Int)),
      writeLoop results off rem = some (b, calls) →
      1 ≤ calls.length ∧ calls.length ≤ results.length ∧
      calls = (List.range calls.length).map
        (fun i => (off + ((results.take i).sum), rem - ((results.take i).sum))) ∧
      (b = true ↔ ((results.take calls.length).sum = rem ∧
        ∀ w ∈ results.take calls.length, 0 ≤ w)) ∧
      (b = false → ∃ w, results.take calls.length = results.take (calls.length - 1) ++ [w] ∧ w < 0) := by
  induction results with
  | nil => intro off rem b calls h; simp [writeLoop] at h
  | cons w rest ih =>
    intro off rem b calls h
    by_cases hw : w < 0
    · simp only [writeLoop, if_pos hw, Option.some.injEq, Prod.mk.injEq] at h
      obtain ⟨hb, hcalls⟩ := h
      subst hb; subst hcalls
      refine ⟨by simp, by simp, ?_, ?_, ?_⟩
      · simp [range_one_eq]
      · constructor
        · intro hcon; cases hcon
        · rintro ⟨-, hnn⟩
          have := hnn w (by simp)
          omega
      · intro _
        exact ⟨w, by simp, hw⟩
    · by_cases hwr : w = rem
      · simp only [writeLoop, if_neg hw, if_pos hwr, Option.some.injEq, Prod.mk.injEq] at h
        obtain ⟨hb, hcalls⟩ := h
        subst hb; subst hcalls
        refine ⟨by simp, by simp, ?_, ?_, by simp⟩
        · simp [range_one_eq]
        · simp only [List.length_cons, List.length_nil, true_iff]
          refine ⟨by simp [hwr], ?_⟩
          intro x hx
          simp at hx
          subst hx; omega
      · simp only [writeLoop, if_neg hw, if_neg hwr] at h
        rcases Option.map_eq_some'.mp h with ⟨⟨b2, calls2⟩, hrec, heq⟩
        simp only [Prod.mk.injEq] at heq
        obtain ⟨hb, hcalls⟩ := heq
        subst hb; subst hcalls
        obtain ⟨h1, h2, hstruct, hiff, hfalse⟩ := ih (off + w) (rem - w) b2 calls2 hrec
        obtain ⟨m, hm⟩ : ∃ m, calls2.length = m + 1 := ⟨calls2.length - 1, by omega⟩
        refine ⟨by simp, by simp only [List.length_cons]; omega, ?_, ?_, ?_⟩
        · simp only [List.length_cons, List.range_succ_eq_map, List.map_cons, List.map_map]
          congr 1
          · simp
          · conv_lhs => rw [hstruct]
            apply List.map_congr_left
            intro i _
            simp only [Function.comp_apply, List.take_succ_cons, List.sum_cons,
              Prod.mk.injEq]
            constructor <;> ring
        · rw [hiff]
          simp only [List.length_cons, List.take_succ_cons, List.sum_cons]
          constructor
          · rintro ⟨hsum, hnn⟩
            refine ⟨by omega, ?_⟩
            intro x hx
            rcases List.mem_cons.mp hx with hx | hx
            · omega
            · exact hnn x hx
          · rintro ⟨hsum, hnn⟩
            refine ⟨by omega, ?_⟩
            intro x hx
            exact hnn x (List.mem_cons_of_mem w hx)
        · intro hb2
          obtain ⟨w2, hw2, hwneg⟩ := hfalse hb2
          rw [hm] at hw2
          simp only [Nat.add_sub_cancel] at hw2
          refine ⟨w2, ?_, hwneg⟩
          simp only [List.length_cons, hm, Nat.add_sub_cancel, List.take_succ_cons, hw2]
          simp

theorem readLoop_spec (results : List Int) :
    ∀ (total rem ret : Int), readLoop results total rem = some ret →
      ret = total + rem ∨
      ∃ pre r rest, results = pre ++ r :: rest ∧ (∀ w ∈ pre, 0 < w) ∧ r ≤ 0 ∧ ret = r := by
  induction results with
  | nil => intro total rem ret h; simp [readLoop] at h
  | cons r rest ih =>
    intro total rem ret h
    by_cases hr : r ≤ 0
    · simp only [readLoop, if_pos hr] at h
      exact Or.inr ⟨[], r, rest, by simp, by simp, hr, (Option.some.inj h).symm⟩
    · by_cases hrr : r = rem
      · simp only [readLoop, if_neg hr, if_pos hrr] at h
        left
        rw [← Option.some.inj h, hrr]
      · simp only [readLoop, if_neg hr, if_neg hrr] at h
        rcases ih (total + r) (rem - r) ret h with hret | ⟨pre, r', rest', heq, hpre, hneg, hret⟩
        · left; omega
        · right
          refine ⟨r :: pre, r', rest', by simp [heq], ?_, hneg, hret⟩
          intro w hw
          rcases List.mem_cons.mp hw with hw | hw
          · omega
          · exact hpre w hw

theorem char_eq_of_toNat_eq {c1 c2 : Char} (h : c1.toNat = c2.toNat) : c1 = c2 :=
  Char.eq_of_val_eq (UInt32.ext h)

theorem strncmp_exact (s : List Char) :
    ∀ b : List Char, (∀ c ∈ s, c.toNat ≠ 0) → (∀ c ∈ b, c.toNat ≠ 0) →
      (strncmp s b (s.length + 1) = 0 ↔ s = b) := by
  induction s with
  | nil =>
    intro b _ hb
    cases b with
    | nil => simp [strncmp]
    | cons c bs =>
      simp only [strncmp, List.length_nil]
      constructor
      · intro h
        have hc := hb c (List.mem_cons_self c bs)
        omega
      · intro h; cases h
  | cons c1 s1 ih =>
    intro b hs hb
    cases b with
    | nil =>
      simp only [strncmp, List.length_cons]
      constructor
      · intro h
        have := hs c1 (List.mem_cons_self c1 s1)
        omega
      · intro h; cases h
    | cons c2 bs =>
      simp only [strncmp, List.length_cons]
      by_cases hc : c1 = c2
      · subst hc
        rw [if_pos rfl]
        rw [ih bs (fun c hcm => hs c (List.mem_cons_of_mem _ hcm))
          (fun c hcm => hb c (List.mem_cons_of_mem _ hcm))]
        simp
      · rw [if_neg hc]
        constructor
        · intro h
          have : c1.toNat = c2.toNat := by omega
          exact absurd (char_eq_of_toNat_eq this) hc
        · intro h
          injection h with h1 _
          exact absurd h1 hc

theorem takeWhile_dash (pre post : List Char) (h : '-' ∉ pre) :
    (pre ++ '-' :: post).takeWhile (fun c => c ≠ '-') = pre ∧
    (pre ++ '-' :: post).dropWhile (fun c => c ≠ '-') = '-' :: post := by
  induction pre with
  | nil =>
    constructor
    · rw [List.nil_append, List.takeWhile_cons, if_neg (by decide)]
    · rw [List.nil_append, List.dropWhile_cons, if_neg (by decide)]
  | cons c cs ih =>
    have hc : c ≠ '-' := fun hh => h (hh ▸ List.mem_cons_self c cs)
    have hmem : '-' ∉ cs := fun hh => h (List.mem_cons_of_mem c hh)
    obtain ⟨h1, h2⟩ := ih hmem
    constructor
    · rw [List.cons_append, List.takeWhile_cons, if_pos (by simp [hc]), h1]
    · rw [List.cons_append, List.dropWhile_cons, if_pos (by simp [hc]), h2]

theorem exists_dash_split (cfg : List Char) (h : '-' ∈ cfg) :
    ∃ pre post, cfg = pre ++ '-' :: post ∧ '-' ∉ pre := by
  induction cfg with
  | nil => cases h
  | cons c cs ih =>
    by_cases hc : c = '-'
    · subst hc; exact ⟨[], cs, rfl, List.not_mem_nil _⟩
    · have h2 : '-' ∈ cs := by
        rcases List.mem_cons.mp h with h | h
        · exact absurd h.symm hc
        · exact h
      obtain ⟨pre, post, heq, hnm⟩ := ih h2
      refine ⟨c :: pre, post, by rw [heq, List.cons_append], ?_⟩
      intro hmem
      rcases List.mem_cons.mp hmem with hmem | hmem
      · exact hc hmem.symm
      · exact hnm hmem

theorem br_wf : ∀ e ∈ br, e.len = e.str.length + 1 ∧ ∀ c ∈ e.str, c.toNat ≠ 0 := by
  decide

theorem br_found : ∀ e ∈ br, map_str_baudrate e.str ≠ -1 := by
  decide

theorem map_loop_not_found (t : List sbaud_rate) :
    ∀ b : List Char,
      (∀ e ∈ t, e.len = e.str.length + 1 ∧ ∀ c ∈ e.str, c.toNat ≠ 0) →
      (∀ c ∈ b, c.toNat ≠ 0) →
      map_str_baudrate_loop t b ≠ -1 → ∃ e ∈ t, e.str = b := by
  induction t with
  | nil => intro b _ _ h; simp [map_str_baudrate_loop] at h
  | cons e rest ih =>
    intro b hwf hb h
    by_cases hcmp : strncmp e.str b e.len ≠ 0
    · simp only [map_str_baudrate_loop, if_pos hcmp] at h
      by_cases hstr : e.str = []
      · rw [if_pos hstr] at h; exact absurd rfl h
      · rw [if_neg hstr] at h
        obtain ⟨e2, he2, hb2⟩ := ih b (fun x hx => hwf x (List.mem_cons_of_mem e hx)) hb h
        exact ⟨e2, List.mem_cons_of_mem e he2, hb2⟩
    · push_neg at hcmp
      have hwfe := hwf e (List.mem_cons_self e rest)
      have hmatch : e.str = b := by
        rw [← strncmp_exact e.str b hwfe.2 hb, ← hwfe.1]
        exact hcmp
      exact ⟨e, List.mem_cons_self e rest, hmatch⟩

theorem configure_body_error_einval (baud mode : List Char) (e : Nat)
    (h : configure_tty_body baud mode = Except.error e) : e = EINVAL := by
  unfold configure_tty_body at h
  repeat' split at h
  all_goals simp_all

theorem configure_error_einval (cfg : List Char) (e : Nat)
    (h : configure_tty_options cfg = Except.error e) : e = EINVAL := by
  unfold configure_tty_options at h
  split at h
  · exact configure_body_error_einval _ _ e h
  · simp_all

theorem cbitsOf_char (d : Char) (x : Nat) (h : cbitsOf d = some x) :
    d = '5' ∨ d = '6' ∨ d = '7' ∨ d = '8' := by
  unfold cbitsOf at h
  split_ifs at h with h1 h2 h3 h4
  · exact Or.inr (Or.inr (Or.inr h1))
  · exact Or.inr (Or.inr (Or.inl h2))
  · exact Or.inr (Or.inl h3)
  · exact Or.inl h4

theorem parityOf_char (p : Char) (x : Nat × Nat) (h : parityOf p = some x) :
    p = 'N' ∨ p = 'n' ∨ p = 'E' ∨ p = 'e' ∨ p = 'O' ∨ p = 'o' := by
  unfold parityOf at h
  split_ifs at h with h1 h2 h3
  · rcases h1 with h1 | h1
    · exact Or.inl h1
    · exact Or.inr (Or.inl h1)
  · rcases h2 with h2 | h2
    · exact Or.inr (Or.inr (Or.inl h2))
    · exact Or.inr (Or.inr (Or.inr (Or.inl h2)))
  · rcases h3 with h3 | h3
    · exact Or.inr (Or.inr (Or.inr (Or.inr (Or.inl h3))))
    · exact Or.inr (Or.inr (Or.inr (Or.inr (Or.inr h3))))

theorem stopOf_char (s : Char) (x : Nat) (h : stopOf s = some x) :
    s = '1' ∨ s = '2' := by
  unfold stopOf at h
  split_ifs at h with h1 h2
  · exact Or.inl h1
  · exact Or.inr h2

theorem configure_ok_of_valid (cfg : List Char) (h : validSerialConfig cfg) :
    ∃ o, configure_tty_options cfg = Except.ok o := by
  obtain ⟨baud, d, p, s, rfl, hnb, ⟨e, he, hstr⟩, hd, hp, hs⟩ := h
  obtain ⟨ht, hdr⟩ := takeWhile_dash baud [d, p, s] hnb
  have hmem : '-' ∈ baud ++ '-' :: [d, p, s] :=
    List.mem_append_right _ (List.mem_cons_self _ _)
  unfold configure_tty_options
  rw [if_pos hmem, ht, hdr, List.tail_cons]
  unfold configure_tty_body
  rw [← hstr, if_neg (br_found e he)]
  rw [if_neg (by simp)]
  simp only [List.mem_cons, List.not_mem_nil, or_false] at hd hp hs
  rcases hd with rfl | rfl | rfl | rfl <;>
    rcases hp with rfl | rfl | rfl | rfl | rfl | rfl <;>
    rcases hs with rfl | rfl <;>
    exact ⟨_, rfl⟩

theorem valid_of_configure_ok (cfg : List Char) (hnul : ∀ c ∈ cfg, c.toNat ≠ 0)
    (o : TermiosOptions) (h : configure_tty_options cfg = Except.ok o) :
    validSerialConfig cfg := by
  unfold configure_tty_options at h
  split at h
  case isTrue hmem =>
    obtain ⟨pre, post, heq, hnb⟩ := exists_dash_split cfg hmem
    subst heq
    obtain ⟨ht, hdr⟩ := takeWhile_dash pre post hnb
    rw [ht, hdr, List.tail_cons] at h
    unfold configure_tty_body at h
    split at h
    · cases h
    rename_i hbaud
    split at h
    · cases h
    rename_i hlen3
    push_neg at hlen3
    split at h
    · cases h
    rename_i cbits hcb
    split at h
    · cases h
    rename_i cpar ipar hpr
    split at h
    · cases h
    rename_i bstop hst
    obtain ⟨d, p, s, rfl⟩ : ∃ d p s, post = [d, p, s] := by
      cases post with
      | nil => simp at hlen3
      | cons d t =>
        cases t with
        | nil => simp at hlen3
        | cons p t2 =>
          cases t2 with
          | nil => simp at hlen3
          | cons s t3 =>
            cases t3 with
            | nil => exact ⟨d, p, s, rfl⟩
            | cons a t4 => simp [List.length_cons] at hlen3
    refine ⟨pre, d, p, s, rfl, hnb, ?_, ?_, ?_, ?_⟩
    · exact map_loop_not_found br pre br_wf
        (fun c hc => hnul c (List.mem_append_left _ hc)) hbaud
    · simpa using cbitsOf_char d cbits hcb
    · simpa using parityOf_char p (cpar, ipar) hpr
    · simpa using stopOf_char s bstop hst
  case isFalse => cases h

theorem open_tcp_cases (env : NetEnv) :
    (indigo_open_tcp env).1 = -1 ∨
    ((indigo_open_tcp env).1 = env.socketResult ∧
      NetEvent.connectCall env.socketResult ∈ (indigo_open_tcp env).2 ∧
      NetEvent.setRcvTimeout env.socketResult 5 0 ∈ (indigo_open_tcp env).2 ∧
      NetEvent.setSndTimeout env.socketResult 5 0 ∈ (indigo_open_tcp env).2) := by
  by_cases h1 : env.resolveOk = false
  · left; simp [indigo_open_tcp, h1]
  · by_cases h2 : env.socketResult = -1
    · left; simp [indigo_open_tcp, h1, h2]
    · by_cases h3 : env.connectResult < 0
      · left; simp [indigo_open_tcp, h1, h2, h3]
      · by_cases h4 : env.rcvTimeoutResult < 0
        · left; simp [indigo_open_tcp, h1, h2, h3, h4]
        · by_cases h5 : env.sndTimeoutResult < 0
          · left; simp [indigo_open_tcp, h1, h2, h3, h4, h5]
          · right; simp [indigo_open_tcp, h1, h2, h3, h4, h5]

theorem open_udp_cases (env : NetEnv) :
    (indigo_open_udp env).1 = -1 ∨
    ((indigo_open_udp env).1 = env.socketResult ∧
      NetEvent.connectCall env.socketResult ∈ (indigo_open_udp env).2 ∧
      NetEvent.setRcvTimeout env.socketResult 5 0 ∈ (indigo_open_udp env).2 ∧
      NetEvent.setSndTimeout env.socketResult 5 0 ∈ (indigo_open_udp env).2) := by
  by_cases h1 : env.resolveOk = false
  · left; simp [indigo_open_udp, h1]
  · by_cases h2 : env.socketResult = -1
    · left; simp [indigo_open_udp, h1, h2]
    · by_cases h3 : env.connectResult < 0
      · left; simp [indigo_open_udp, h1, h2, h3]
      · by_cases h4 : env.rcvTimeoutResult < 0
        · left; simp [indigo_open_udp, h1, h2, h3, h4]
        · by_cases h5 : env.sndTimeoutResult < 0
          · left; simp [indigo_open_udp, h1, h2, h3, h4, h5]
          · right; simp [indigo_open_udp, h1, h2, h3, h4, h5]

theorem open_tcp_close (env : NetEnv)
    (hres : env.resolveOk = true) (hsock : env.socketResult ≠ -1)
    (hconn : ¬ env.connectResult < 0)
    (hopt : env.rcvTimeoutResult < 0 ∨ env.sndTimeoutResult < 0) :
    (indigo_open_tcp env).1 = -1 ∧
    NetEvent.closeSock env.socketResult ∈ (indigo_open_tcp env).2 := by
  have h1 : ¬ env.resolveOk = false := by simp [hres]
  by_cases h4 : env.rcvTimeoutResult < 0
  · simp [indigo_open_tcp, h1, hsock, hconn, h4]
  · have h5 : env.sndTimeoutResult < 0 := by tauto
    simp [indigo_open_tcp, h1, hsock, hconn, h4, h5]

theorem open_udp_close (env : NetEnv)
    (hres : env.resolveOk = true) (hsock : env.socketResult ≠ -1)
    (hconn : ¬ env.connectResult < 0)
    (hopt : env.rcvTimeoutResult < 0 ∨ env.sndTimeoutResult < 0) :
    (indigo_open_udp env).1 = -1 ∧
    NetEvent.closeSock env.socketResult ∈ (indigo_open_udp env).2 := by
  have h1 : ¬ env.resolveOk = false := by simp [hres]
  by_cases h4 : env.rcvTimeoutResult < 0
  · simp [indigo_open_udp, h1, hsock, hconn, h4]
  · have h5 : env.sndTimeoutResult < 0 := by tauto
    simp [indigo_open_udp, h1, hsock, hconn, h4, h5]

/-! ## Claim theorems -/

/-- C1: on a stream whose bytes arrive without read failure, with an LF
arriving while fewer than `length` bytes have been stored,
`indigo_read_line` discards every CR byte, stops at the first LF without
storing it, stores every other byte in order at indices `0, 1, ...`,
NUL-terminates the buffer, and returns the number of stored bytes; the
stored bytes contain no CR and no LF. -/
theorem claim_C1_read_line (bytes : List Nat) (length : Nat)
    (hlf : 10 ∈ bytes) (hroom : (lineStored bytes).length < length) :
    indigo_read_line (bytes.map some) length =
      some (((lineStored bytes).length : Int),
        List.enumFrom 0 (lineStored bytes) ++ [((lineStored bytes).length, 0)]) ∧
    ∀ c ∈ lineStored bytes, c ≠ 13 ∧ c ≠ 10 := by
  constructor
  · have h := readLineLoop_of_line length bytes 0 hlf (by omega)
    simpa [indigo_read_line] using h
  · intro c hc
    unfold lineStored at hc
    rw [List.mem_filter] at hc
    refine ⟨by simpa using hc.2, ?_⟩
    have := List.mem_takeWhile_imp hc.1
    simpa using this

/-- C1 witness. -/
theorem claim_C1_read_line_w :
    (10 ∈ [72, 13, 73, 10, 74] ∧ (lineStored [72, 13, 73, 10, 74]).length < 8) ∧
    indigo_read_line ([72, 13, 73, 10, 74].map some) 8 =
      some (2, [(0, 72), (1, 73), (2, 0)]) :=
  ⟨⟨by decide, by decide⟩,
    (claim_C1_read_line [72, 13, 73, 10, 74] 8 (by decide) (by decide)).1⟩

/-- C6: if the stream yields at least `length` bytes, none of which is CR
or LF, before any LF, then `indigo_read_line` exits its loop with
`total_bytes = length` and stores the NUL terminator at index `length`,
one element past the end of a caller buffer of capacity `length`. -/
theorem claim_C6_read_line_overflow (bytes : List Nat) (length : Nat)
    (hlen : length ≤ bytes.length)
    (hok : ∀ c ∈ bytes.take length, c ≠ 13 ∧ c ≠ 10) :
    indigo_read_line (bytes.map some) length =
      some ((length : Int), List.enumFrom 0 (bytes.take length) ++ [(length, 0)]) ∧
    (length, 0) ∈ List.enumFrom 0 (bytes.take length) ++ [(length, 0)] := by
  refine ⟨?_, by simp⟩
  have hlen2 : (bytes.take length).length = length := by
    rw [List.length_take]; omega
  have hmap : bytes.map some = (bytes.take length).map some ++ (bytes.drop length).map some := by
    rw [← List.map_append, List.take_append_drop]
  rw [indigo_read_line, hmap]
  have h := readLineLoop_full_buffer length (bytes.take length)
    ((bytes.drop length).map some) 0 hok (by omega)
  exact h

/-- C6 witness. -/
theorem claim_C6_read_line_overflow_w :
    (2 ≤ ([65, 66, 67] : List Nat).length ∧
      ∀ c ∈ ([65, 66, 67] : List Nat).take 2, c ≠ 13 ∧ c ≠ 10) ∧
    indigo_read_line ([65, 66, 67].map some) 2 =
      some (2, [(0, 65), (1, 66), (2, 0)]) :=
  ⟨⟨by decide, by decide⟩,
    (claim_C6_read_line_overflow [65, 66, 67] 2 (by decide) (by decide)).1⟩

/-- C2: whenever `indigo_write` terminates having consumed the given
underlying `write` results, the i-th underlying call was made at buffer
offset equal to the bytes transferred so far with size the untransferred
remainder; the result is `true` exactly when the consumed results are
non-negative and together transfer all `length` bytes, and it is `false`
exactly when the last consumed result is negative (the loop stopping
right there). -/
theorem claim_C2_write (results : List Int) (length : Int) (b : Bool)
    (calls : List (Int × Int))
    (h : indigo_write results length = some (b, calls)) :
    1 ≤ calls.length ∧ calls.length ≤ results.length ∧
    calls = (List.range calls.length).map
      (fun i => ((results.take i).sum, length - (results.take i).sum)) ∧
    (b = true ↔ ((results.take calls.length).sum = length ∧
      ∀ w ∈ results.take calls.length, 0 ≤ w)) ∧
    (b = false → ∃ w, results.take calls.length =
      results.take (calls.length - 1) ++ [w] ∧ w < 0) := by
  have hs := writeLoop_spec results 0 length b calls h
  simpa using hs

/-- C2 witness. -/
theorem claim_C2_write_w :
    indigo_write [2, 3] 5 = some (true, [((0 : Int), (5 : Int)), (2, 3)]) ∧
    (true = true ↔ ((([2, 3] : List Int).take 2).sum = 5 ∧
      ∀ w ∈ ([2, 3] : List Int).take 2, 0 ≤ w)) :=
  ⟨by decide, (claim_C2_write [2, 3] 5 true [(0, 5), (2, 3)] (by decide)).2.2.2.1⟩

/-- C5: for positive `length`, `indigo_read` either returns exactly
`length` (after retrying short reads), or returns the nonpositive result
of the first failing underlying read, even when earlier reads had
already consumed bytes — those are not reported. -/
theorem claim_C5_read (results : List Int) (length : Int) (ret : Int)
    (hpos : 0 < length) (h : indigo_read results length = some ret) :
    ret = length ∨
    ∃ pre r rest, results = pre ++ r :: rest ∧ (∀ w ∈ pre, 0 < w) ∧
      r ≤ 0 ∧ ret = r := by
  have hs := readLoop_spec results 0 length ret h
  simpa using hs

/-- C5 witness: two bytes are consumed by a first successful read, then
a read returns 0; `indigo_read` reports 0, not 2. -/
theorem claim_C5_read_w :
    ((0 : Int) < 5 ∧ indigo_read [2, 0] 5 = some 0) ∧
    ((0 : Int) = 5 ∨
      ∃ pre r rest, ([2, 0] : List Int) = pre ++ r :: rest ∧
        (∀ w ∈ pre, 0 < w) ∧ r ≤ 0 ∧ (0 : Int) = r) :=
  ⟨⟨by decide, by decide⟩, claim_C5_read [2, 0] 5 0 (by decide) (by decide)⟩

/-- C3: `indigo_open_tcp` and `indigo_open_udp` either return `-1` — and
when the failure is a `setsockopt` failure (name resolution, socket
creation and connect all having succeeded) the already-created socket is
closed — or they return the connected socket with both the receive and
the send timeout set to exactly 5 seconds and 0 microseconds. -/
theorem claim_C3_open_socket (env : NetEnv) :
    ((indigo_open_tcp env).1 = -1 ∨
      ((indigo_open_tcp env).1 = env.socketResult ∧
        NetEvent.connectCall env.socketResult ∈ (indigo_open_tcp env).2 ∧
        NetEvent.setRcvTimeout env.socketResult 5 0 ∈ (indigo_open_tcp env).2 ∧
        NetEvent.setSndTimeout env.socketResult 5 0 ∈ (indigo_open_tcp env).2)) ∧
    (env.resolveOk = true → env.socketResult ≠ -1 → ¬ env.connectResult < 0 →
      (env.rcvTimeoutResult < 0 ∨ env.sndTimeoutResult < 0) →
      (indigo_open_tcp env).1 = -1 ∧
        NetEvent.closeSock env.socketResult ∈ (indigo_open_tcp env).2) ∧
    ((indigo_open_udp env).1 = -1 ∨
      ((indigo_open_udp env).1 = env.socketResult ∧
        NetEvent.connectCall env.socketResult ∈ (indigo_open_udp env).2 ∧
        NetEvent.setRcvTimeout env.socketResult 5 0 ∈ (indigo_open_udp env).2 ∧
        NetEvent.setSndTimeout env.socketResult 5 0 ∈ (indigo_open_udp env).2)) ∧
    (env.resolveOk = true → env.socketResult ≠ -1 → ¬ env.connectResult < 0 →
      (env.rcvTimeoutResult < 0 ∨ env.sndTimeoutResult < 0) →
      (indigo_open_udp env).1 = -1 ∧
        NetEvent.closeSock env.socketResult ∈ (indigo_open_udp env).2) :=
  ⟨open_tcp_cases env,
    fun a b c d => open_tcp_close env a b c d,
    open_udp_cases env,
    fun a b c d => open_udp_close env a b c d⟩

/-- C4: a configuration string shorter than 32 characters (NUL-free, as
any C string is) is accepted by `configure_tty_options` exactly when it
has the shape `"<baud>-<data><parity><stop>"` of `validSerialConfig`;
otherwise the parse fails with `errno = EINVAL` and
`indigo_open_serial_with_config` returns `-1` without attempting to open
the device file. -/
theorem claim_C4_serial_config (cfg : List Char) (hlen : cfg.length < 32)
    (hnul : ∀ c ∈ cfg, c.toNat ≠ 0) :
    ((∃ o, configure_tty_options cfg = Except.ok o) ↔ validSerialConfig cfg) ∧
    (¬ validSerialConfig cfg →
      configure_tty_options cfg = Except.error EINVAL ∧
      ∀ env dev_file, indigo_open_serial_with_config env dev_file cfg = (-1, false)) := by
  constructor
  · constructor
    · rintro ⟨o, ho⟩
      exact valid_of_configure_ok cfg hnul o ho
    · exact configure_ok_of_valid cfg
  · intro hnv
    obtain ⟨e, he⟩ : ∃ e, configure_tty_options cfg = Except.error e := by
      cases hcfg : configure_tty_options cfg with
      | ok o => exact absurd (valid_of_configure_ok cfg hnul o hcfg) hnv
      | error e => exact ⟨e, rfl⟩
    have heinval := configure_error_einval cfg e he
    subst heinval
    refine ⟨he, ?_⟩
    intro env dev_file
    unfold indigo_open_serial_with_config
    rw [he]

/-- C4 witness. -/
theorem claim_C4_serial_config_w :
    (('9' :: '6' :: '0' :: '0' :: '-' :: '8' :: 'N' :: '1' :: []).length < 32 ∧
      ∀ c ∈ ('9' :: '6' :: '0' :: '0' :: '-' :: '8' :: 'N' :: '1' :: []), c.toNat ≠ 0) ∧
    ((∃ o, configure_tty_options ('9' :: '6' :: '0' :: '0' :: '-' :: '8' :: 'N' :: '1' :: [])
        = Except.ok o) ↔
      validSerialConfig ('9' :: '6' :: '0' :: '0' :: '-' :: '8' :: 'N' :: '1' :: [])) :=
  ⟨⟨by decide, by decide⟩,
    (claim_C4_serial_config ('9' :: '6' :: '0' :: '0' :: '-' :: '8' :: 'N' :: '1' :: [])
      (by decide) (by decide)).1⟩

/-- C7: `indigo_open_serial` formats the default speed 9600 as
`"9600-8N1"` and delegates, so it returns exactly the result of
`indigo_open_serial_with_config` on the configuration string
`"9600-8N1"` of the specification example. -/
theorem claim_C7_serial_default (env : TtyEnv) (dev_file : List Char) :
    indigo_open_serial env dev_file =
      indigo_open_serial_with_config env dev_file
        ('9' :: '6' :: '0' :: '0' :: '-' :: '8' :: 'N' :: '1' :: []) := by
  unfold indigo_open_serial indigo_open_serial_with_speed
  have h : intToDecimal 9600 ++ ('-' :: '8' :: 'N' :: '1' :: []) =
      ('9' :: '6' :: '0' :: '0' :: '-' :: '8' :: 'N' :: '1' :: []) := by decide
  rw [h]

/-- C9: the empty baud field of a configuration string such as `"-8N1"`
matches the empty-string sentinel entry of the baud table, so
`map_str_baudrate` returns the sentinel value 0 instead of `-1`, and
`configure_tty_options` accepts the string, configuring speed `B0 = 0`
rather than failing with `EINVAL`. -/
theorem claim_C9_empty_baud :
    map_str_baudrate [] = 0 ∧
    configure_tty_options ('-' :: '8' :: 'N' :: '1' :: []) =
      Except.ok { c_cflag := 2224, c_iflag := 4, c_oflag := 0, c_lflag := 0,
                  c_cc_vmin := 0, c_cc_vtime := 50, ispeed := 0, ospeed := 0 } := by
  constructor
  · decide
  · rfl

/-- C8 counterexample: a formatted output of exactly 1024 characters
satisfies the claim's hypothesis (1024 or longer), yet every byte index
the underlying `write` reads is strictly below 1024, i.e. inside the
1024-byte buffer — the claimed out-of-bounds read does not occur at this
length. -/
theorem claim_C8_printf_cex :
    1024 ≤ (List.replicate 1024 'a').length ∧
    ∀ i ∈ List.range (indigo_printf_len (List.replicate 1024 'a')), i < 1024 := by
  refine ⟨by rw [List.length_replicate], ?_⟩
  intro i hi
  simp only [indigo_printf_len, List.length_replicate, List.mem_range] at hi
  exact hi

/-- C8 (amended): `indigo_printf` always passes the untruncated
`vsnprintf` length to `indigo_write`; for outputs of 1025 characters or
more the write therefore reads indices past the end of the 1024-byte
buffer; for outputs of 1024 characters or more the transmitted bytes are
never the intact message; outputs of at most 1023 characters are written
exactly. -/
theorem claim_C8_printf (junk : Nat → Char) (msg : List Char) :
    (1025 ≤ msg.length →
      indigo_printf_len msg = msg.length ∧
      ∃ i ∈ List.range (indigo_printf_len msg), 1024 ≤ i) ∧
    (1024 ≤ msg.length → Char.ofNat 0 ∉ msg →
      indigo_printf_transmitted junk msg ≠ msg) ∧
    (msg.length ≤ 1023 →
      indigo_printf_transmitted junk msg = msg ∧
      indigo_printf_len msg = msg.length) := by
  refine ⟨?_, ?_, ?_⟩
  · intro h
    refine ⟨rfl, 1024, ?_, le_refl _⟩
    simp only [indigo_printf_len, List.mem_range]
    omega
  · intro h hnn heq
    have hlen1 : 1023 < (indigo_printf_transmitted junk msg).length := by
      simp only [indigo_printf_transmitted, List.length_map, List.length_range,
        indigo_printf_len]
      omega
    have hval : (indigo_printf_transmitted junk msg).get ⟨1023, hlen1⟩ = Char.ofNat 0 := by
      simp only [indigo_printf_transmitted, List.get_eq_getElem, List.getElem_map,
        List.getElem_range]
      unfold printf_buffer_byte
      rw [dif_neg (by omega), if_pos (by omega)]
    have hget := List.get_of_eq heq ⟨1023, hlen1⟩
    rw [hval] at hget
    refine hnn ?_
    rw [hget]
    exact List.get_mem _ _ _
  · intro h
    refine ⟨?_, rfl⟩
    apply List.ext_getElem
    · simp [indigo_printf_transmitted, indigo_printf_len]
    · intro i hi1 hi2
      simp only [indigo_printf_transmitted, List.getElem_map, List.getElem_range]
      unfold printf_buffer_byte
      rw [dif_pos ⟨by omega, hi2⟩]
      rfl

end IndigoIO
